import Mathlib

/-!
Verification of the asynchronous batch transcription job service
(`fun_asr/fun_asr_wav_2_txt_server.py`).

The shallow embedding models one job's lifecycle as a small-step machine.
The Python server runs `background_task` on its own thread while Flask
handlers (`get_task_status`, `cancel_task`) run concurrently; under the GIL
each individual mutation of the shared dictionaries `tasks[task_id]` and
`task_progress[task_id]` is atomic, and the handlers may interleave between
any two such mutations.  Accordingly the executor is embedded as a control
automaton (`Ctrl`) whose transitions (`execStep`) each perform at most one
mutation of the shared job state, and a system trace is an arbitrary
interleaving (`run`) of executor steps with cancellation requests.  Status
polls (`get_task_status`) are pure reads, so every state reached along a
trace is an observable point for a poll.

The route-level operations over the whole task table (`create_task`,
`cancel_task` with its NotFound case, `validate_path`) are embedded
separately over an association list standing for the Python dict `tasks`.
-/

set_option autoImplicit false

namespace FunAsr

/-- Job status strings used by the server: "queued", "processing",
"completed", "failed", "cancelled". -/
inductive Status
  | queued
  | processing
  | completed
  | failed
  | cancelled
deriving DecidableEq, Repr

/-- One entry of the `tasks` dict.  `create_task` stores `input_path`,
`status` and `priority`; `background_task` later `update`s the entry with
either `status/success_count/failed_count` (completion, lines 159-163) or
`status/details.error` (job-level failure, lines 119-124 and 167-170). -/
structure TaskRec where
  input_path : String
  status : Status
  priority : Int
  success_count : Option Nat
  failed_count : Option Nat
  error : Option String
deriving DecidableEq, Repr

/-- One entry of the `task_progress` dict (lines 128-133). -/
structure Progress where
  processed : Nat
  success : Nat
  failed : Nat
  total : Nat
deriving DecidableEq, Repr

/-- Environment-determined fate of one enumerated `.wav` file:
`skip` – the colocated `.txt` output already exists (line 140);
`ok` – transcription and the write of the output both succeed;
`err` – `model.generate` or the write raises (lines 145-155). -/
inductive FileOutcome
  | skip
  | ok
  | err
deriving DecidableEq, Repr

/-- Control point of `background_task` between two consecutive mutations of
the shared state.  The constructors follow the source lines:
`start` – about to execute line 108 (`status = "processing"`);
`ready` – about to run `create_model`, enumerate, and either fail
  (lines 119-124) or install the progress entry (lines 128-133);
`loop idx rest` – top of the `for` loop (line 135) with `rest` the files not
  yet examined and `idx` the 1-based index of the head of `rest`;
`skipA` – output existed, about to run `success += 1` (line 141);
`workA` – about to acquire `MODEL_LOCK` and call `model.generate`
  (lines 146-148);
`workB` – generate and write succeeded, about to run `success += 1`
  (line 152);
`failB` – the per-file `except` branch, about to run `failed += 1`
  (line 155);
`setP` – about to run `processed = idx` (line 142 or line 157);
`post` – loop left (exhausted or broken), about to run the completion
  `update` (lines 159-163);
`cleanup` – in the `finally` block, about to pop the progress entry
  (line 172);
`done` – thread finished. -/
inductive Ctrl
  | start (files : List FileOutcome)
  | ready (files : List FileOutcome)
  | loop (idx : Nat) (rest : List FileOutcome)
  | skipA (idx : Nat) (rest : List FileOutcome)
  | workA (idx : Nat) (o : FileOutcome) (rest : List FileOutcome)
  | workB (idx : Nat) (rest : List FileOutcome)
  | failB (idx : Nat) (rest : List FileOutcome)
  | setP (idx : Nat) (rest : List FileOutcome)
  | post
  | cleanup
  | done
deriving DecidableEq, Repr

/-- Shared state of one job plus the executor's control point.
`task` models `tasks[task_id]`, `progress` models the presence and value of
`task_progress[task_id]` (`none` = key absent), and `engineCalls` counts
acquisitions of `MODEL_LOCK` / invocations of `model.generate`. -/
structure Config where
  task : TaskRec
  progress : Option Progress
  ctrl : Ctrl
  engineCalls : Nat
deriving DecidableEq, Repr

/-- One atomic step of `background_task` (the argument `modelFails` tells
whether `create_model()` at line 110 raises, which lands in the outer
`except` at lines 165-170).  Each arm performs the single shared-state
mutation of the corresponding source line. -/
def execStep (modelFails : Bool) (c : Config) : Config :=
  match c.ctrl with
  | .start fs =>
      { c with task := { c.task with status := .processing }, ctrl := .ready fs }
  | .ready fs =>
      if modelFails then
        { c with
          task := { c.task with
                    status := .failed
                    error := some "模型加载失败，请检查模型配置" },
          ctrl := .cleanup }
      else if fs.isEmpty then
        { c with
          task := { c.task with
                    status := .failed
                    error := some "未找到WAV文件" },
          ctrl := .cleanup }
      else
        { c with
          progress := some { processed := 0, success := 0, failed := 0, total := fs.length },
          ctrl := .loop 1 fs }
  | .loop idx rest =>
      match rest with
      | [] => { c with ctrl := .post }
      | o :: rest' =>
          if c.task.status = .cancelled then
            { c with ctrl := .post }
          else
            match o with
            | .skip => { c with ctrl := .skipA idx rest' }
            | _ => { c with ctrl := .workA idx o rest' }
  | .skipA idx rest =>
      { c with
        progress := c.progress.map (fun p => { p with success := p.success + 1 }),
        ctrl := .setP idx rest }
  | .workA idx o rest =>
      { c with
        engineCalls := c.engineCalls + 1,
        ctrl := match o with
                | .ok => .workB idx rest
                | _ => .failB idx rest }
  | .workB idx rest =>
      { c with
        progress := c.progress.map (fun p => { p with success := p.success + 1 }),
        ctrl := .setP idx rest }
  | .failB idx rest =>
      { c with
        progress := c.progress.map (fun p => { p with failed := p.failed + 1 }),
        ctrl := .setP idx rest }
  | .setP idx rest =>
      { c with
        progress := c.progress.map (fun p => { p with processed := idx }),
        ctrl := .loop (idx + 1) rest }
  | .post =>
      { c with
        task := { c.task with
                  status := .completed
                  success_count := some ((c.progress.map Progress.success).getD 0)
                  failed_count := some ((c.progress.map Progress.failed).getD 0) },
        ctrl := .cleanup }
  | .cleanup =>
      { c with progress := none, ctrl := .done }
  | .done => c

/-- Effect of the `cancel_task` route (lines 223-233) on a job that exists:
rejected when the status is `"completed"` or `"failed"`, otherwise the
status is set to `"cancelled"`. -/
def cancelStep (c : Config) : Config :=
  if c.task.status = .completed ∨ c.task.status = .failed then c
  else { c with task := { c.task with status := .cancelled } }

/-- An interleaving event: one executor step or one cancellation request. -/
inductive Action
  | exec
  | cancel
deriving DecidableEq, Repr

/-- Apply one interleaving event. -/
def step (modelFails : Bool) (c : Config) : Action → Config
  | .exec => execStep modelFails c
  | .cancel => cancelStep c

/-- Job state right after `create_task` inserted the record (lines 188-192)
and spawned the executor thread: status `"queued"`, no progress entry.
The executor never reads `input_path` or `priority` from the record, so
they are fixed here; `create_task` below sets them for the store model. -/
def initConfig (files : List FileOutcome) : Config :=
  { task := { input_path := "", status := .queued, priority := 0,
              success_count := none, failed_count := none, error := none },
    progress := none,
    ctrl := .start files,
    engineCalls := 0 }

/-- Run a schedule of interleaving events from a given configuration. -/
def runFrom (modelFails : Bool) (c : Config) (sched : List Action) : Config :=
  sched.foldl (step modelFails) c

/-- Run a schedule of interleaving events for a freshly created job. -/
def run (modelFails : Bool) (files : List FileOutcome) (sched : List Action) : Config :=
  runFrom modelFails (initConfig files) sched

/-- Iterate `execStep` (a schedule of executor steps only). -/
def execN (modelFails : Bool) : Nat → Config → Config
  | 0, c => c
  | n + 1, c => execN modelFails n (execStep modelFails c)

/-- The JSON body returned by `get_task_status` (lines 206-220) for a job
that exists. -/
structure StatusView where
  status : Status
  success_count : Nat
  failed_count : Nat
  processed : Nat
  total : Nat
deriving DecidableEq, Repr

/-- `get_task_status` for an existing job: the status comes from `tasks`,
every counter from `task_progress.get(task_id, {})` with default `0`
(lines 212-220). -/
def get_task_status (c : Config) : StatusView :=
  { status := c.task.status,
    success_count := (c.progress.map Progress.success).getD 0,
    failed_count := (c.progress.map Progress.failed).getD 0,
    processed := (c.progress.map Progress.processed).getD 0,
    total := (c.progress.map Progress.total).getD 0 }

/-- The `processed` field a poll observes at a given state. -/
def viewProcessed (c : Config) : Nat :=
  (get_task_status c).processed

/-- Result classes of the `cancel_task` route: 404 (unknown id),
400 "任务无法取消" (already `completed`/`failed`), or 200 accepted. -/
inductive CancelResult
  | notFound
  | invalidState
  | accepted
deriving DecidableEq, Repr

/-- Dictionary lookup in the `tasks` dict, modelled as an association
list. -/
def lookupTask : List (String × TaskRec) → String → Option TaskRec
  | [], _ => none
  | (k, v) :: rest, id => if k = id then some v else lookupTask rest id

/-- The in-place write `tasks[task_id]["status"] = st`. -/
def setStatus : List (String × TaskRec) → String → Status → List (String × TaskRec)
  | [], _, _ => []
  | (k, v) :: rest, id, st =>
      if k = id then (k, { v with status := st }) :: rest
      else (k, v) :: setStatus rest id st

/-- The `cancel_task` route over the whole `tasks` dict (lines 223-233):
404 when the id is unknown, 400 when the status is `"completed"` or
`"failed"`, otherwise set the status to `"cancelled"` and accept. -/
def cancel_task (store : List (String × TaskRec)) (id : String) :
    CancelResult × List (String × TaskRec) :=
  match lookupTask store id with
  | none => (.notFound, store)
  | some v =>
      if v.status = .completed ∨ v.status = .failed then (.invalidState, store)
      else (.accepted, setStatus store id .cancelled)

/-- Abstract view of the filesystem facts `validate_path` and `create_task`
consult: `os.path.exists`, `os.path.isdir` and `os.path.abspath`. -/
structure FS where
  pathExists : String → Bool
  isDir : String → Bool
  abspath : String → String

/-- The substring test `"../" in input_path` (line 101), over the
character list of the path. -/
def hasTraversal : List Char → Bool
  | '.' :: '.' :: '/' :: _ => true
  | _ :: rest => hasTraversal rest
  | [] => false

/-- `validate_path` (lines 95-102): raise `ValueError` when the path does
not exist, is not a directory, or contains `"../"`. -/
def validate_path (fs : FS) (input_path : String) : Except String Unit :=
  if !fs.pathExists input_path then .error "路径不存在"
  else if !fs.isDir input_path then .error "需要文件夹路径"
  else if hasTraversal input_path.data then .error "禁止相对路径访问"
  else .ok ()

/-- The `create_task` route (lines 175-203): validation failure returns the
error with status 400 and touches nothing; otherwise a fresh id is
allocated and the record is inserted with status `"queued"`. -/
def create_task (fs : FS) (store : List (String × TaskRec)) (freshId : String)
    (input_path : String) (priority : Int) :
    Except String String × List (String × TaskRec) :=
  match validate_path fs input_path with
  | .error e => (.error e, store)
  | .ok _ =>
      (.ok freshId,
        (freshId,
          { input_path := fs.abspath input_path, status := .queued,
            priority := priority, success_count := none, failed_count := none,
            error := none }) :: store)

/-- Arithmetic relation between the progress counters and the control
point.  At the top of the loop (`loop idx rest`) the counters balance and
`rest` still contains the current file; after the outcome counter has been
bumped but before `processed = idx` ran (`setP`), the outcome counters are
one ahead of `processed`. -/
def counterOk : Ctrl → Progress → Prop
  | .loop idx rest, p =>
      p.success + p.failed = p.processed ∧ p.processed + 1 = idx ∧
        idx + rest.length = p.total + 1
  | .skipA idx rest, p =>
      p.success + p.failed = p.processed ∧ p.processed + 1 = idx ∧
        idx + rest.length = p.total
  | .workA idx _ rest, p =>
      p.success + p.failed = p.processed ∧ p.processed + 1 = idx ∧
        idx + rest.length = p.total
  | .workB idx rest, p =>
      p.success + p.failed = p.processed ∧ p.processed + 1 = idx ∧
        idx + rest.length = p.total
  | .failB idx rest, p =>
      p.success + p.failed = p.processed ∧ p.processed + 1 = idx ∧
        idx + rest.length = p.total
  | .setP idx rest, p =>
      p.success + p.failed = p.processed + 1 ∧ p.processed + 1 = idx ∧
        idx + rest.length = p.total
  | .post, p => p.success + p.failed = p.processed ∧ p.processed ≤ p.total
  | .cleanup, p => p.success + p.failed = p.processed ∧ p.processed ≤ p.total
  | _, _ => True

/-- Control points at which the `task_progress` entry is necessarily
absent: before lines 128-133 ran, and after the `finally` pop. -/
def noProgressCtrl : Ctrl → Prop
  | .start _ => True
  | .ready _ => True
  | .done => True
  | _ => False

/-- Control points between `failed/success += 1` and `processed = idx`. -/
def midCounterUpdate : Ctrl → Bool
  | .setP _ _ => true
  | _ => false

/-- Reachability invariant of the job machine: the progress entry is absent
outside the enumerated-run phase, the counters satisfy `counterOk`, and
whenever the executor has reached the `finally` block with status
`"completed"` the final snapshot counts are recorded on the task record. -/
def Inv (c : Config) : Prop :=
  (noProgressCtrl c.ctrl → c.progress = none) ∧
  (∀ p, c.progress = some p → counterOk c.ctrl p) ∧
  ((c.ctrl = .cleanup ∨ c.ctrl = .done) → c.task.status = .completed →
    c.task.success_count.isSome ∧ c.task.failed_count.isSome)

theorem inv_initConfig (files : List FileOutcome) : Inv (initConfig files) := by
  refine ⟨fun _ => rfl, fun p hp => by simp [initConfig] at hp, ?_⟩
  rintro (h | h) <;> simp [initConfig] at h

theorem inv_step (mf : Bool) (a : Action) (c : Config) (h : Inv c) :
    Inv (step mf c a) := by
  obtain ⟨tk, pr, ct, ec⟩ := c
  obtain ⟨hnp, hco, hsnap⟩ := h
  cases a with
  | cancel =>
      by_cases hst : tk.status = .completed ∨ tk.status = .failed
      · have e : step mf ⟨tk, pr, ct, ec⟩ .cancel = ⟨tk, pr, ct, ec⟩ := by
          simp [step, cancelStep, hst]
        rw [e]; exact ⟨hnp, hco, hsnap⟩
      · have e : step mf ⟨tk, pr, ct, ec⟩ .cancel =
            ⟨{ tk with status := .cancelled }, pr, ct, ec⟩ := by
          simp [step, cancelStep, hst]
        rw [e]
        exact ⟨hnp, hco, fun _ h2 => by simp at h2⟩
  | exec =>
      show Inv (execStep mf ⟨tk, pr, ct, ec⟩)
      cases ct with
      | start fs =>
          have e : execStep mf ⟨tk, pr, .start fs, ec⟩ =
              ⟨{ tk with status := .processing }, pr, .ready fs, ec⟩ := rfl
          rw [e]
          exact ⟨fun _ => hnp trivial, fun p hp => trivial,
            by rintro (h2 | h2) <;> simp at h2⟩
      | ready fs =>
          cases mf with
          | true =>
              have e : execStep true ⟨tk, pr, .ready fs, ec⟩ =
                  ⟨{ tk with status := .failed,
                             error := some "模型加载失败，请检查模型配置" },
                    pr, .cleanup, ec⟩ := rfl
              rw [e]
              refine ⟨fun hf => hf.elim, fun p hp => ?_, fun _ h2 => by simp at h2⟩
              rw [hnp trivial] at hp; exact Option.noConfusion hp
          | false =>
              cases fs with
              | nil =>
                  have e : execStep false ⟨tk, pr, .ready [], ec⟩ =
                      ⟨{ tk with status := .failed,
                                 error := some "未找到WAV文件" },
                        pr, .cleanup, ec⟩ := rfl
                  rw [e]
                  refine ⟨fun hf => hf.elim, fun p hp => ?_, fun _ h2 => by simp at h2⟩
                  rw [hnp trivial] at hp; exact Option.noConfusion hp
              | cons f fs' =>
                  have e : execStep false ⟨tk, pr, .ready (f :: fs'), ec⟩ =
                      ⟨tk,
                        some { processed := 0, success := 0, failed := 0,
                               total := (f :: fs').length },
                        .loop 1 (f :: fs'), ec⟩ := rfl
                  rw [e]
                  refine ⟨fun hf => hf.elim, fun p hp => ?_,
                    by rintro (h3 | h3) <;> simp at h3⟩
                  injection hp with h3
                  subst h3
                  refine ⟨rfl, rfl, ?_⟩
                  simp only [List.length_cons]
                  omega
      | loop idx rest =>
          cases rest with
          | nil =>
              have e : execStep mf ⟨tk, pr, .loop idx [], ec⟩ =
                  ⟨tk, pr, .post, ec⟩ := rfl
              rw [e]
              refine ⟨fun hf => hf.elim, fun p hp => ?_, by rintro (h3 | h3) <;> simp at h3⟩
              have h3 := hco p hp
              simp [counterOk] at h3 ⊢
              omega
          | cons o rest' =>
              by_cases hcanc : tk.status = .cancelled
              · have e : execStep mf ⟨tk, pr, .loop idx (o :: rest'), ec⟩ =
                    ⟨tk, pr, .post, ec⟩ := by
                  cases o <;> simp [execStep, hcanc]
                rw [e]
                refine ⟨fun hf => hf.elim, fun p hp => ?_, by rintro (h3 | h3) <;> simp at h3⟩
                have h3 := hco p hp
                simp [counterOk] at h3 ⊢
                omega
              · cases o with
                | skip =>
                    have e : execStep mf ⟨tk, pr, .loop idx (.skip :: rest'), ec⟩ =
                        ⟨tk, pr, .skipA idx rest', ec⟩ := by
                      simp [execStep, hcanc]
                    rw [e]
                    refine ⟨fun hf => hf.elim, fun p hp => ?_, by rintro (h3 | h3) <;> simp at h3⟩
                    have h3 := hco p hp
                    simp [counterOk] at h3 ⊢
                    omega
                | ok =>
                    have e : execStep mf ⟨tk, pr, .loop idx (.ok :: rest'), ec⟩ =
                        ⟨tk, pr, .workA idx .ok rest', ec⟩ := by
                      simp [execStep, hcanc]
                    rw [e]
                    refine ⟨fun hf => hf.elim, fun p hp => ?_, by rintro (h3 | h3) <;> simp at h3⟩
                    have h3 := hco p hp
                    simp [counterOk] at h3 ⊢
                    omega
                | err =>
                    have e : execStep mf ⟨tk, pr, .loop idx (.err :: rest'), ec⟩ =
                        ⟨tk, pr, .workA idx .err rest', ec⟩ := by
                      simp [execStep, hcanc]
                    rw [e]
                    refine ⟨fun hf => hf.elim, fun p hp => ?_, by rintro (h3 | h3) <;> simp at h3⟩
                    have h3 := hco p hp
                    simp [counterOk] at h3 ⊢
                    omega
      | skipA idx rest =>
          cases pr with
          | none =>
              have e : execStep mf ⟨tk, none, .skipA idx rest, ec⟩ =
                  ⟨tk, none, .setP idx rest, ec⟩ := rfl
              rw [e]
              exact ⟨fun hf => hf.elim, fun p hp => Option.noConfusion hp,
                by rintro (h3 | h3) <;> simp at h3⟩
          | some q =>
              have e : execStep mf ⟨tk, some q, .skipA idx rest, ec⟩ =
                  ⟨tk, some { q with success := q.success + 1 }, .setP idx rest, ec⟩ := rfl
              rw [e]
              refine ⟨fun hf => hf.elim, fun p hp => ?_, by rintro (h3 | h3) <;> simp at h3⟩
              injection hp with h3
              subst h3
              have h3 := hco q rfl
              simp [counterOk] at h3 ⊢
              omega
      | workA idx o rest =>
          cases o with
          | skip =>
              have e : execStep mf ⟨tk, pr, .workA idx .skip rest, ec⟩ =
                  ⟨tk, pr, .failB idx rest, ec + 1⟩ := rfl
              rw [e]
              refine ⟨fun hf => hf.elim, fun p hp => ?_, by rintro (h3 | h3) <;> simp at h3⟩
              have h3 := hco p hp
              simp [counterOk] at h3 ⊢
              omega
          | ok =>
              have e : execStep mf ⟨tk, pr, .workA idx .ok rest, ec⟩ =
                  ⟨tk, pr, .workB idx rest, ec + 1⟩ := rfl
              rw [e]
              refine ⟨fun hf => hf.elim, fun p hp => ?_, by rintro (h3 | h3) <;> simp at h3⟩
              have h3 := hco p hp
              simp [counterOk] at h3 ⊢
              omega
          | err =>
              have e : execStep mf ⟨tk, pr, .workA idx .err rest, ec⟩ =
                  ⟨tk, pr, .failB idx rest, ec + 1⟩ := rfl
              rw [e]
              refine ⟨fun hf => hf.elim, fun p hp => ?_, by rintro (h3 | h3) <;> simp at h3⟩
              have h3 := hco p hp
              simp [counterOk] at h3 ⊢
              omega
      | workB idx rest =>
          cases pr with
          | none =>
              have e : execStep mf ⟨tk, none, .workB idx rest, ec⟩ =
                  ⟨tk, none, .setP idx rest, ec⟩ := rfl
              rw [e]
              exact ⟨fun hf => hf.elim, fun p hp => Option.noConfusion hp,
                by rintro (h3 | h3) <;> simp at h3⟩
          | some q =>
              have e : execStep mf ⟨tk, some q, .workB idx rest, ec⟩ =
                  ⟨tk, some { q with success := q.success + 1 }, .setP idx rest, ec⟩ := rfl
              rw [e]
              refine ⟨fun hf => hf.elim, fun p hp => ?_, by rintro (h3 | h3) <;> simp at h3⟩
              injection hp with h3
              subst h3
              have h3 := hco q rfl
              simp [counterOk] at h3 ⊢
              omega
      | failB idx rest =>
          cases pr with
          | none =>
              have e : execStep mf ⟨tk, none, .failB idx rest, ec⟩ =
                  ⟨tk, none, .setP idx rest, ec⟩ := rfl
              rw [e]
              exact ⟨fun hf => hf.elim, fun p hp => Option.noConfusion hp,
                by rintro (h3 | h3) <;> simp at h3⟩
          | some q =>
              have e : execStep mf ⟨tk, some q, .failB idx rest, ec⟩ =
                  ⟨tk, some { q with failed := q.failed + 1 }, .setP idx rest, ec⟩ := rfl
              rw [e]
              refine ⟨fun hf => hf.elim, fun p hp => ?_, by rintro (h3 | h3) <;> simp at h3⟩
              injection hp with h3
              subst h3
              have h3 := hco q rfl
              simp [counterOk] at h3 ⊢
              omega
      | setP idx rest =>
          cases pr with
          | none =>
              have e : execStep mf ⟨tk, none, .setP idx rest, ec⟩ =
                  ⟨tk, none, .loop (idx + 1) rest, ec⟩ := rfl
              rw [e]
              exact ⟨fun hf => hf.elim, fun p hp => Option.noConfusion hp,
                by rintro (h3 | h3) <;> simp at h3⟩
          | some q =>
              have e : execStep mf ⟨tk, some q, .setP idx rest, ec⟩ =
                  ⟨tk, some { q with processed := idx }, .loop (idx + 1) rest, ec⟩ := rfl
              rw [e]
              refine ⟨fun hf => hf.elim, fun p hp => ?_, by rintro (h3 | h3) <;> simp at h3⟩
              injection hp with h3
              subst h3
              have h3 := hco q rfl
              simp [counterOk] at h3 ⊢
              omega
      | post =>
          cases pr with
          | none =>
              have e : execStep mf ⟨tk, none, .post, ec⟩ =
                  ⟨{ tk with status := .completed, success_count := some 0,
                             failed_count := some 0 },
                    none, .cleanup, ec⟩ := rfl
              rw [e]
              exact ⟨fun hf => hf.elim, fun p hp => Option.noConfusion hp,
                fun _ _ => ⟨rfl, rfl⟩⟩
          | some q =>
              have e : execStep mf ⟨tk, some q, .post, ec⟩ =
                  ⟨{ tk with status := .completed, success_count := some q.success,
                             failed_count := some q.failed },
                    some q, .cleanup, ec⟩ := rfl
              rw [e]
              refine ⟨fun hf => hf.elim, fun p hp => ?_, fun _ _ => ⟨rfl, rfl⟩⟩
              injection hp with h3
              subst h3
              have h3 := hco q rfl
              simp [counterOk] at h3 ⊢
              omega
      | cleanup =>
          have e : execStep mf ⟨tk, pr, .cleanup, ec⟩ = ⟨tk, none, .done, ec⟩ := rfl
          rw [e]
          exact ⟨fun _ => rfl, fun p hp => Option.noConfusion hp,
            fun _ h2 => hsnap (Or.inl rfl) h2⟩
      | done =>
          exact ⟨hnp, hco, hsnap⟩

theorem inv_runFrom (mf : Bool) (sched : List Action) (c : Config) (h : Inv c) :
    Inv (runFrom mf c sched) := by
  induction sched generalizing c with
  | nil => exact h
  | cons a t ih => exact ih (step mf c a) (inv_step mf a c h)

theorem inv_run (mf : Bool) (files : List FileOutcome) (sched : List Action) :
    Inv (run mf files sched) :=
  inv_runFrom mf sched (initConfig files) (inv_initConfig files)

theorem runFrom_append (mf : Bool) (c : Config) (s t : List Action) :
    runFrom mf c (s ++ t) = runFrom mf (runFrom mf c s) t :=
  List.foldl_append (step mf) c s t

theorem run_append (mf : Bool) (files : List FileOutcome) (s t : List Action) :
    run mf files (s ++ t) = runFrom mf (run mf files s) t :=
  runFrom_append mf (initConfig files) s t

theorem done_step (mf : Bool) (a : Action) (c : Config) (h : c.ctrl = .done) :
    (step mf c a).ctrl = .done := by
  obtain ⟨tk, pr, ct, ec⟩ := c
  simp only [Config.mk.injEq] at h ⊢
  subst h
  cases a with
  | exec => rfl
  | cancel =>
      show (cancelStep _).ctrl = _
      unfold cancelStep
      split <;> rfl

theorem done_runFrom (mf : Bool) (t : List Action) (c : Config)
    (h : c.ctrl = .done) : (runFrom mf c t).ctrl = .done := by
  induction t generalizing c with
  | nil => exact h
  | cons a t ih => exact ih (step mf c a) (done_step mf a c h)

theorem viewProcessed_step (mf : Bool) (a : Action) (c : Config) (h : Inv c) :
    viewProcessed c ≤ viewProcessed (step mf c a) ∨ (step mf c a).ctrl = .done := by
  obtain ⟨tk, pr, ct, ec⟩ := c
  obtain ⟨hnp, hco, _⟩ := h
  cases a with
  | cancel =>
      left
      show viewProcessed ⟨tk, pr, ct, ec⟩ ≤ viewProcessed (cancelStep ⟨tk, pr, ct, ec⟩)
      unfold cancelStep
      split <;> exact Nat.le_refl _
  | exec =>
      show viewProcessed ⟨tk, pr, ct, ec⟩ ≤ viewProcessed (execStep mf ⟨tk, pr, ct, ec⟩) ∨
        (execStep mf ⟨tk, pr, ct, ec⟩).ctrl = .done
      cases ct with
      | start fs => exact Or.inl (Nat.le_refl _)
      | ready fs =>
          left
          have hpr : pr = none := hnp trivial
          subst hpr
          exact Nat.zero_le _
      | loop idx rest =>
          left
          cases rest with
          | nil => exact Nat.le_refl _
          | cons o rest' =>
              by_cases hcanc : tk.status = .cancelled
              · have e : execStep mf ⟨tk, pr, .loop idx (o :: rest'), ec⟩ =
                    ⟨tk, pr, .post, ec⟩ := by
                  cases o <;> simp [execStep, hcanc]
                rw [e]
                exact Nat.le_refl _
              · cases o with
                | skip =>
                    have e : execStep mf ⟨tk, pr, .loop idx (.skip :: rest'), ec⟩ =
                        ⟨tk, pr, .skipA idx rest', ec⟩ := by
                      simp [execStep, hcanc]
                    rw [e]
                    exact Nat.le_refl _
                | ok =>
                    have e : execStep mf ⟨tk, pr, .loop idx (.ok :: rest'), ec⟩ =
                        ⟨tk, pr, .workA idx .ok rest', ec⟩ := by
                      simp [execStep, hcanc]
                    rw [e]
                    exact Nat.le_refl _
                | err =>
                    have e : execStep mf ⟨tk, pr, .loop idx (.err :: rest'), ec⟩ =
                        ⟨tk, pr, .workA idx .err rest', ec⟩ := by
                      simp [execStep, hcanc]
                    rw [e]
                    exact Nat.le_refl _
      | skipA idx rest =>
          left
          cases pr with
          | none => exact Nat.le_refl _
          | some q => exact Nat.le_refl _
      | workA idx o rest =>
          left
          cases o <;> exact Nat.le_refl _
      | workB idx rest =>
          left
          cases pr with
          | none => exact Nat.le_refl _
          | some q => exact Nat.le_refl _
      | failB idx rest =>
          left
          cases pr with
          | none => exact Nat.le_refl _
          | some q => exact Nat.le_refl _
      | setP idx rest =>
          left
          cases pr with
          | none => exact Nat.le_refl _
          | some q =>
              have h3 := hco q rfl
              simp [counterOk] at h3
              show q.processed ≤ idx
              omega
      | post => exact Or.inl (Nat.le_refl _)
      | cleanup => exact Or.inr rfl
      | done => exact Or.inl (Nat.le_refl _)

theorem viewProcessed_runFrom (mf : Bool) (t : List Action) (c : Config)
    (h : Inv c) :
    viewProcessed c ≤ viewProcessed (runFrom mf c t) ∨
      (runFrom mf c t).ctrl = .done := by
  induction t generalizing c with
  | nil => exact Or.inl (Nat.le_refl _)
  | cons a t ih =>
      rcases viewProcessed_step mf a c h with h1 | h1
      · rcases ih (step mf c a) (inv_step mf a c h) with h2 | h2
        · exact Or.inl (Nat.le_trans h1 h2)
        · exact Or.inr h2
      · exact Or.inr (done_runFrom mf t (step mf c a) h1)

/-- Invariant of every run whose enumeration is empty: the executor stays
on the failure path, the progress entry never exists, the engine is never
invoked, and the job can only finish `failed` (or `cancelled` by a race). -/
def EInv (c : Config) : Prop :=
  c.engineCalls = 0 ∧ c.progress = none ∧ c.task.status ≠ .completed ∧
  (c.ctrl = .start [] ∨ c.ctrl = .ready [] ∨ c.ctrl = .cleanup ∨ c.ctrl = .done) ∧
  ((c.ctrl = .cleanup ∨ c.ctrl = .done) →
    c.task.status = .failed ∨ c.task.status = .cancelled)

theorem einv_step (mf : Bool) (a : Action) (c : Config) (h : EInv c) :
    EInv (step mf c a) := by
  obtain ⟨tk, pr, ct, ec⟩ := c
  obtain ⟨hec, hpr, hnc, hctrl, hterm⟩ := h
  have hec' : ec = 0 := hec
  have hpr' : pr = none := hpr
  subst hec' hpr'
  cases a with
  | cancel =>
      by_cases hst : tk.status = .completed ∨ tk.status = .failed
      · have e : step mf ⟨tk, none, ct, 0⟩ .cancel = ⟨tk, none, ct, 0⟩ := by
          simp [step, cancelStep, hst]
        rw [e]; exact ⟨hec, hpr, hnc, hctrl, hterm⟩
      · have e : step mf ⟨tk, none, ct, 0⟩ .cancel =
            ⟨{ tk with status := .cancelled }, none, ct, 0⟩ := by
          simp [step, cancelStep, hst]
        rw [e]
        exact ⟨rfl, rfl, by simp, hctrl, fun _ => Or.inr rfl⟩
  | exec =>
      rcases hctrl with h1 | h1 | h1 | h1 <;>
        (replace h1 : ct = _ := h1; subst h1)
      · have e : step mf ⟨tk, none, .start [], 0⟩ .exec =
            ⟨{ tk with status := .processing }, none, .ready [], 0⟩ := rfl
        rw [e]
        exact ⟨rfl, rfl, by simp, Or.inr (Or.inl rfl),
          by rintro (h2 | h2) <;> simp at h2⟩
      · cases mf with
        | true =>
            have e : step true ⟨tk, none, .ready [], 0⟩ .exec =
                ⟨{ tk with status := .failed,
                           error := some "模型加载失败，请检查模型配置" },
                  none, .cleanup, 0⟩ := rfl
            rw [e]
            exact ⟨rfl, rfl, by simp, Or.inr (Or.inr (Or.inl rfl)),
              fun _ => Or.inl rfl⟩
        | false =>
            have e : step false ⟨tk, none, .ready [], 0⟩ .exec =
                ⟨{ tk with status := .failed,
                           error := some "未找到WAV文件" },
                  none, .cleanup, 0⟩ := rfl
            rw [e]
            exact ⟨rfl, rfl, by simp, Or.inr (Or.inr (Or.inl rfl)),
              fun _ => Or.inl rfl⟩
      · have e : step mf ⟨tk, none, .cleanup, 0⟩ .exec =
            ⟨tk, none, .done, 0⟩ := rfl
        rw [e]
        exact ⟨rfl, rfl, hnc, Or.inr (Or.inr (Or.inr rfl)),
          fun _ => hterm (Or.inl rfl)⟩
      · have e : step mf ⟨tk, none, .done, 0⟩ .exec =
            ⟨tk, none, .done, 0⟩ := rfl
        rw [e]
        exact ⟨rfl, rfl, hnc, Or.inr (Or.inr (Or.inr rfl)),
          fun _ => hterm (Or.inr rfl)⟩

theorem einv_runFrom (mf : Bool) (sched : List Action) (c : Config) (h : EInv c) :
    EInv (runFrom mf c sched) := by
  induction sched generalizing c with
  | nil => exact h
  | cons a t ih => exact ih (step mf c a) (einv_step mf a c h)

theorem einv_run (mf : Bool) (sched : List Action) : EInv (run mf [] sched) := by
  refine einv_runFrom mf sched (initConfig []) ?_
  refine ⟨rfl, rfl, by simp [initConfig], Or.inl rfl, ?_⟩
  rintro (h2 | h2) <;> simp [initConfig] at h2

/-- Invariant of runs all of whose files have pre-existing outputs: the
engine-invocation control points are unreachable and the engine-call
counter stays `0`. -/
def SkipInv (c : Config) : Prop :=
  c.engineCalls = 0 ∧
  match c.ctrl with
  | .start fs => ∀ o ∈ fs, o = FileOutcome.skip
  | .ready fs => ∀ o ∈ fs, o = FileOutcome.skip
  | .loop _ rest => ∀ o ∈ rest, o = FileOutcome.skip
  | .skipA _ rest => ∀ o ∈ rest, o = FileOutcome.skip
  | .setP _ rest => ∀ o ∈ rest, o = FileOutcome.skip
  | .workA _ _ _ => False
  | .workB _ _ => False
  | .failB _ _ => False
  | _ => True

theorem skipInv_step (mf : Bool) (a : Action) (c : Config) (h : SkipInv c) :
    SkipInv (step mf c a) := by
  obtain ⟨tk, pr, ct, ec⟩ := c
  obtain ⟨hec, hsk⟩ := h
  have hec' : ec = 0 := hec
  subst hec'
  cases a with
  | cancel =>
      show SkipInv (cancelStep ⟨tk, pr, ct, 0⟩)
      unfold cancelStep
      split
      · exact ⟨hec, hsk⟩
      · exact ⟨hec, hsk⟩
  | exec =>
      show SkipInv (execStep mf ⟨tk, pr, ct, 0⟩)
      cases ct with
      | start fs => exact ⟨rfl, hsk⟩
      | ready fs =>
          cases mf with
          | true => exact ⟨rfl, trivial⟩
          | false =>
              cases fs with
              | nil => exact ⟨rfl, trivial⟩
              | cons f fs' => exact ⟨rfl, hsk⟩
      | loop idx rest =>
          cases rest with
          | nil => exact ⟨rfl, trivial⟩
          | cons o rest' =>
              by_cases hcanc : tk.status = .cancelled
              · have e : execStep mf ⟨tk, pr, .loop idx (o :: rest'), 0⟩ =
                    ⟨tk, pr, .post, 0⟩ := by
                  cases o <;> simp [execStep, hcanc]
                rw [e]
                exact ⟨rfl, trivial⟩
              · have ho : o = FileOutcome.skip := hsk o (List.mem_cons_self o rest')
                subst ho
                have e : execStep mf ⟨tk, pr, .loop idx (.skip :: rest'), 0⟩ =
                    ⟨tk, pr, .skipA idx rest', 0⟩ := by
                  simp [execStep, hcanc]
                rw [e]
                exact ⟨rfl, fun o ho => hsk o (List.mem_cons_of_mem _ ho)⟩
      | skipA idx rest => exact ⟨rfl, hsk⟩
      | workA idx o rest => exact absurd hsk (fun hf => hf)
      | workB idx rest => exact absurd hsk (fun hf => hf)
      | failB idx rest => exact absurd hsk (fun hf => hf)
      | setP idx rest => exact ⟨rfl, hsk⟩
      | post => exact ⟨rfl, trivial⟩
      | cleanup => exact ⟨rfl, trivial⟩
      | done => exact ⟨rfl, trivial⟩

theorem skipInv_runFrom (mf : Bool) (sched : List Action) (c : Config)
    (h : SkipInv c) : SkipInv (runFrom mf c sched) := by
  induction sched generalizing c with
  | nil => exact h
  | cons a t ih => exact ih (step mf c a) (skipInv_step mf a c h)

theorem execN_add (mf : Bool) (a b : Nat) (c : Config) :
    execN mf (a + b) c = execN mf a (execN mf b c) := by
  induction b generalizing c with
  | zero => rfl
  | succ b ih => exact ih (execStep mf c)

theorem runFrom_replicate_exec (mf : Bool) (n : Nat) (c : Config) :
    runFrom mf c (List.replicate n .exec) = execN mf n c := by
  induction n generalizing c with
  | zero => rfl
  | succ n ih =>
      rw [List.replicate_succ]
      exact ih (execStep mf c)

/-- Closed form of an uninterrupted executor run over files whose outputs
all pre-exist: each file costs three steps (cancel check and branch, the
`success += 1`, the `processed = idx` write), and the final three steps are
loop exit, the completion update, and the `finally` pop. -/
theorem execN_skip_run (mf : Bool) (n : Nat) :
    ∀ (tk : TaskRec) (p : Progress) (idx ec : Nat), tk.status ≠ .cancelled →
      execN mf (3 * n + 3) ⟨tk, some p, .loop idx (List.replicate n .skip), ec⟩ =
        ⟨{ tk with status := .completed, success_count := some (p.success + n),
                   failed_count := some p.failed },
          none, .done, ec⟩ := by
  induction n with
  | zero =>
      intro tk p idx ec htk
      show execN mf 3 _ = _
      rfl
  | succ m ih =>
      intro tk p idx ec htk
      have h3 : 3 * (m + 1) + 3 = (3 * m + 3) + 3 := by ring
      rw [h3, execN_add]
      have hstep : execN mf 3 ⟨tk, some p, .loop idx (List.replicate (m + 1) .skip), ec⟩ =
          ⟨tk, some { p with success := p.success + 1, processed := idx },
            .loop (idx + 1) (List.replicate m .skip), ec⟩ := by
        rw [List.replicate_succ]
        show execN mf 2 (execStep mf ⟨tk, some p, .loop idx (.skip :: List.replicate m .skip), ec⟩) = _
        have e : execStep mf ⟨tk, some p, .loop idx (.skip :: List.replicate m .skip), ec⟩ =
            ⟨tk, some p, .skipA idx (List.replicate m .skip), ec⟩ := by
          simp [execStep, htk]
        rw [e]
        rfl
      rw [hstep, ih tk _ (idx + 1) ec htk]
      have harith : p.success + 1 + m = p.success + (m + 1) := by ring
      rw [harith]

/-- Invariant of runs with a non-empty enumeration and an available engine:
the `"failed"` status is unreachable, whatever the per-file outcomes. -/
def FInv (files : List FileOutcome) (c : Config) : Prop :=
  c.task.status ≠ .failed ∧
  (∀ fs, c.ctrl = .start fs → fs = files) ∧
  (∀ fs, c.ctrl = .ready fs → fs = files)

theorem finv_step (files : List FileOutcome) (hne : files ≠ [])
    (a : Action) (c : Config) (h : FInv files c) : FInv files (step false c a) := by
  obtain ⟨tk, pr, ct, ec⟩ := c
  obtain ⟨hnf, hst, hrd⟩ := h
  cases a with
  | cancel =>
      by_cases hcf : tk.status = .completed ∨ tk.status = .failed
      · have e : step false ⟨tk, pr, ct, ec⟩ .cancel = ⟨tk, pr, ct, ec⟩ := by
          simp [step, cancelStep, hcf]
        rw [e]; exact ⟨hnf, hst, hrd⟩
      · have e : step false ⟨tk, pr, ct, ec⟩ .cancel =
            ⟨{ tk with status := .cancelled }, pr, ct, ec⟩ := by
          simp [step, cancelStep, hcf]
        rw [e]
        exact ⟨by simp, hst, hrd⟩
  | exec =>
      show FInv files (execStep false ⟨tk, pr, ct, ec⟩)
      cases ct with
      | start fs =>
          have e : execStep false ⟨tk, pr, .start fs, ec⟩ =
              ⟨{ tk with status := .processing }, pr, .ready fs, ec⟩ := rfl
          rw [e]
          exact ⟨by simp, fun gs hg => by simp at hg,
            fun gs hg => by injection hg with h2; rw [← h2]; exact hst fs rfl⟩
      | ready fs =>
          have hfs : fs = files := hrd fs rfl
          subst hfs
          cases hne' : fs with
          | nil => exact absurd hne' hne
          | cons f fs' =>
              subst hne'
              have e : execStep false ⟨tk, pr, .ready (f :: fs'), ec⟩ =
                  ⟨tk,
                    some { processed := 0, success := 0, failed := 0,
                           total := (f :: fs').length },
                    .loop 1 (f :: fs'), ec⟩ := rfl
              rw [e]
              exact ⟨hnf, fun gs hg => by simp at hg, fun gs hg => by simp at hg⟩
      | loop idx rest =>
          cases rest with
          | nil =>
              have e : execStep false ⟨tk, pr, .loop idx [], ec⟩ =
                  ⟨tk, pr, .post, ec⟩ := rfl
              rw [e]
              exact ⟨hnf, fun gs hg => by simp at hg, fun gs hg => by simp at hg⟩
          | cons o rest' =>
              by_cases hcanc : tk.status = .cancelled
              · have e : execStep false ⟨tk, pr, .loop idx (o :: rest'), ec⟩ =
                    ⟨tk, pr, .post, ec⟩ := by
                  cases o <;> simp [execStep, hcanc]
                rw [e]
                exact ⟨hnf, fun gs hg => by simp at hg, fun gs hg => by simp at hg⟩
              · cases o with
                | skip =>
                    have e : execStep false ⟨tk, pr, .loop idx (.skip :: rest'), ec⟩ =
                        ⟨tk, pr, .skipA idx rest', ec⟩ := by
                      simp [execStep, hcanc]
                    rw [e]
                    exact ⟨hnf, fun gs hg => by simp at hg, fun gs hg => by simp at hg⟩
                | ok =>
                    have e : execStep false ⟨tk, pr, .loop idx (.ok :: rest'), ec⟩ =
                        ⟨tk, pr, .workA idx .ok rest', ec⟩ := by
                      simp [execStep, hcanc]
                    rw [e]
                    exact ⟨hnf, fun gs hg => by simp at hg, fun gs hg => by simp at hg⟩
                | err =>
                    have e : execStep false ⟨tk, pr, .loop idx (.err :: rest'), ec⟩ =
                        ⟨tk, pr, .workA idx .err rest', ec⟩ := by
                      simp [execStep, hcanc]
                    rw [e]
                    exact ⟨hnf, fun gs hg => by simp at hg, fun gs hg => by simp at hg⟩
      | skipA idx rest =>
          exact ⟨hnf, fun gs hg => by simp [execStep] at hg,
            fun gs hg => by simp [execStep] at hg⟩
      | workA idx o rest =>
          cases o <;>
            exact ⟨hnf, fun gs hg => by simp [execStep] at hg,
              fun gs hg => by simp [execStep] at hg⟩
      | workB idx rest =>
          exact ⟨hnf, fun gs hg => by simp [execStep] at hg,
            fun gs hg => by simp [execStep] at hg⟩
      | failB idx rest =>
          exact ⟨hnf, fun gs hg => by simp [execStep] at hg,
            fun gs hg => by simp [execStep] at hg⟩
      | setP idx rest =>
          exact ⟨hnf, fun gs hg => by simp [execStep] at hg,
            fun gs hg => by simp [execStep] at hg⟩
      | post =>
          have e : execStep false ⟨tk, pr, .post, ec⟩ =
              ⟨{ tk with status := .completed,
                         success_count := some ((pr.map Progress.success).getD 0),
                         failed_count := some ((pr.map Progress.failed).getD 0) },
                pr, .cleanup, ec⟩ := rfl
          rw [e]
          exact ⟨by simp, fun gs hg => by simp at hg, fun gs hg => by simp at hg⟩
      | cleanup =>
          have e : execStep false ⟨tk, pr, .cleanup, ec⟩ = ⟨tk, none, .done, ec⟩ := rfl
          rw [e]
          exact ⟨hnf, fun gs hg => by simp at hg, fun gs hg => by simp at hg⟩
      | done => exact ⟨hnf, hst, hrd⟩

theorem finv_runFrom (files : List FileOutcome) (hne : files ≠ [])
    (sched : List Action) (c : Config) (h : FInv files c) :
    FInv files (runFrom false c sched) := by
  induction sched generalizing c with
  | nil => exact h
  | cons a t ih => exact ih (step false c a) (finv_step files hne a c h)

theorem finv_run (files : List FileOutcome) (hne : files ≠ [])
    (sched : List Action) : FInv files (run false files sched) := by
  refine finv_runFrom files hne sched (initConfig files) ?_
  refine ⟨by simp [initConfig], fun gs hg => ?_, fun gs hg => ?_⟩
  · injection hg with h2; exact h2.symm
  · exact absurd hg (by simp [initConfig])

theorem setStatus_self (store : List (String × TaskRec)) (id : String)
    (v : TaskRec) (st : Status) (hl : lookupTask store id = some v)
    (hs : v.status = st) : setStatus store id st = store := by
  induction store with
  | nil => exact absurd hl (by simp [lookupTask])
  | cons kv rest ih =>
      obtain ⟨k, w⟩ := kv
      by_cases hk : k = id
      · have hw : w = v := by
          have : lookupTask ((k, w) :: rest) id = some w := by
            simp [lookupTask, hk]
          rw [this] at hl
          exact Option.some.inj hl
        subst hw
        show (if k = id then (k, { w with status := st }) :: rest
              else (k, w) :: setStatus rest id st) = (k, w) :: rest
        rw [if_pos hk]
        rw [← hs]
      · have hl' : lookupTask rest id = some v := by
          have : lookupTask ((k, w) :: rest) id = lookupTask rest id := by
            simp [lookupTask, hk]
          rw [← this]; exact hl
        show (if k = id then (k, { w with status := st }) :: rest
              else (k, w) :: setStatus rest id st) = (k, w) :: rest
        rw [if_neg hk, ih hl']

theorem validate_path_invalid (fs : FS) (input_path : String)
    (h : fs.pathExists input_path = false ∨ fs.isDir input_path = false ∨
         hasTraversal input_path.data = true) :
    ∃ e, validate_path fs input_path = .error e := by
  unfold validate_path
  by_cases hp : fs.pathExists input_path
  · by_cases hd : fs.isDir input_path
    · rcases h with h | h | h
      · rw [hp] at h; exact absurd h (by simp)
      · rw [hd] at h; exact absurd h (by simp)
      · refine ⟨"禁止相对路径访问", ?_⟩
        simp [hp, hd, h]
    · refine ⟨"需要文件夹路径", ?_⟩
      simp [hp, hd]
  · refine ⟨"路径不存在", ?_⟩
    simp [hp]

/-- Claim C1 (code bug evidence): a 5-file job whose first file is skipped
is cancelled after 1 file is processed; the executor observes the flag at
the top of the loop and breaks, yet the post-loop update overwrites the
terminal status with `completed` (recording `success_count = 1`), and after
the `finally` pop a poll reports `processed = 0` instead of 1. -/
theorem C1_cancel_overwritten_by_completed :
    (run false [.skip, .skip, .skip, .skip, .skip]
        [.exec, .exec, .exec, .exec, .exec, .cancel]).task.status = .cancelled ∧
    (get_task_status (run false [.skip, .skip, .skip, .skip, .skip]
        [.exec, .exec, .exec, .exec, .exec, .cancel])).processed = 1 ∧
    (run false [.skip, .skip, .skip, .skip, .skip]
        [.exec, .exec, .exec, .exec, .exec, .cancel, .exec, .exec, .exec]).ctrl = .done ∧
    (run false [.skip, .skip, .skip, .skip, .skip]
        [.exec, .exec, .exec, .exec, .exec, .cancel, .exec, .exec, .exec]).task.status
      = .completed ∧
    (run false [.skip, .skip, .skip, .skip, .skip]
        [.exec, .exec, .exec, .exec, .exec, .cancel, .exec, .exec, .exec]).task.success_count
      = some 1 ∧
    (get_task_status (run false [.skip, .skip, .skip, .skip, .skip]
        [.exec, .exec, .exec, .exec, .exec, .cancel, .exec, .exec, .exec])).processed = 0 :=
  ⟨rfl, rfl, rfl, rfl, rfl, rfl⟩

/-- Claim C2 (counterexample): a completed 2-file job (one success, one
per-file failure) has its progress entry removed and the snapshot
`success_count = some 1`, `failed_count = some 1` on the record, yet
`get_task_status` returns all counters `0` — not the snapshot counts the
claim promises. -/
theorem C2_counterexample :
    (run false [.ok, .err] (List.replicate 13 .exec)).progress = none ∧
    (run false [.ok, .err] (List.replicate 13 .exec)).task.success_count = some 1 ∧
    (run false [.ok, .err] (List.replicate 13 .exec)).task.failed_count = some 1 ∧
    get_task_status (run false [.ok, .err] (List.replicate 13 .exec)) =
      { status := .completed, success_count := 0, failed_count := 0,
        processed := 0, total := 0 } :=
  ⟨rfl, rfl, rfl, rfl⟩

/-- Claim C2 (amended): once the executor has finished, the live-progress
entry is gone, a `completed` record carries the final
`success_count`/`failed_count` snapshot, but `GetJobStatus` reports zeros
for all four counters because it reads only the live-progress structure. -/
theorem C2_terminal_snapshot_and_zero_counts (mf : Bool)
    (files : List FileOutcome) (sched : List Action)
    (h : (run mf files sched).ctrl = .done) :
    (run mf files sched).progress = none ∧
    get_task_status (run mf files sched) =
      { status := (run mf files sched).task.status, success_count := 0,
        failed_count := 0, processed := 0, total := 0 } ∧
    ((run mf files sched).task.status = .completed →
      (run mf files sched).task.success_count.isSome ∧
      (run mf files sched).task.failed_count.isSome) := by
  obtain ⟨hnp, _, hsnap⟩ := inv_run mf files sched
  have hpn : (run mf files sched).progress = none := by
    apply hnp
    rw [h]
    trivial
  refine ⟨hpn, ?_, hsnap (Or.inr h)⟩
  simp [get_task_status, hpn]

/-- Witness for C2: a finished empty-enumeration job has no live-progress
entry. -/
theorem C2_terminal_snapshot_and_zero_counts_witness :
    (run false [] (List.replicate 3 .exec)).progress = none :=
  (C2_terminal_snapshot_and_zero_counts false [] (List.replicate 3 .exec) rfl).1

/-- Claim C3 (code bug evidence): a job whose status has become the
terminal `cancelled` is moved out of it by a later executor step — the
post-loop update rewrites the status to `completed`. -/
theorem C3_cancelled_state_exited :
    (run false [.err] [.exec, .exec, .cancel]).task.status = .cancelled ∧
    (run false [.err] [.exec, .exec, .cancel, .exec, .exec]).task.status = .completed :=
  ⟨rfl, rfl⟩

/-- Claim C4 (counterexample): for a job over an empty directory a poll
issued right after the executor starts observes status `processing` —
the job does not go directly from `queued` to `failed`. -/
theorem C4_counterexample :
    (get_task_status (run false [] [.exec])).status = .processing ∧
    (run false [] (List.replicate 3 .exec)).task.status = .failed :=
  ⟨rfl, rfl⟩

/-- Claim C4 (amended): a job whose enumeration finds zero files reports
`total = 0`, never invokes the engine, never becomes `completed`, and when
its executor has finished its status is `failed` (or `cancelled` if a
cancellation raced in); but it passes through `processing`, which a poll
can observe. -/
theorem C4_empty_enumeration_fails (mf : Bool) (sched : List Action) :
    (get_task_status (run mf [] sched)).total = 0 ∧
    (run mf [] sched).engineCalls = 0 ∧
    (run mf [] sched).task.status ≠ .completed ∧
    ((run mf [] sched).ctrl = .done →
      (run mf [] sched).task.status = .failed ∨
      (run mf [] sched).task.status = .cancelled) := by
  obtain ⟨hec, hpr, hnc, _, hterm⟩ := einv_run mf sched
  refine ⟨?_, hec, hnc, fun h2 => hterm (Or.inr h2)⟩
  simp [get_task_status, hpr]

/-- Witness for C4: an uninterrupted empty-enumeration run ends `failed`. -/
theorem C4_empty_enumeration_fails_witness :
    (run false [] (List.replicate 3 .exec)).task.status = .failed ∨
    (run false [] (List.replicate 3 .exec)).task.status = .cancelled :=
  (C4_empty_enumeration_fails false (List.replicate 3 .exec)).2.2.2 rfl

/-- Claim C5 (counterexample): a poll during a 1-file run reports
`processed = 1`, but a later poll after the executor popped the progress
entry reports `processed = 0` — `processed` across polls is not
non-decreasing once the job is terminal. -/
theorem C5_counterexample :
    (get_task_status (run false [.skip] (List.replicate 5 .exec))).processed = 1 ∧
    (get_task_status (run false [.skip] (List.replicate 8 .exec))).processed = 0 :=
  ⟨rfl, rfl⟩

/-- Claim C5 (amended): across any two polls of the same job, the observed
`processed` is non-decreasing unless the executor has meanwhile finished
(popped the progress entry), after which polls read the default `0`. -/
theorem C5_processed_monotone_until_cleanup (mf : Bool)
    (files : List FileOutcome) (s t : List Action) :
    viewProcessed (run mf files s) ≤ viewProcessed (run mf files (s ++ t)) ∨
      (run mf files (s ++ t)).ctrl = .done := by
  rw [run_append]
  exact viewProcessed_runFrom mf t (run mf files s) (inv_run mf files s)

/-- Claim C6 (counterexample): cancelling a job whose status is already the
terminal `cancelled` is accepted by `cancel_task`, not rejected with
`InvalidState` as the claim requires for every terminal state. -/
theorem C6_counterexample :
    (cancel_task [("a", { input_path := "/d", status := .cancelled, priority := 0,
                          success_count := none, failed_count := none,
                          error := none })] "a").1 = .accepted := by
  decide

/-- Claim C6 (amended): `cancel_task` returns `NotFound` for an unknown id
leaving the store unchanged; for a job in `completed` or `failed` it
returns `InvalidState` leaving the store unchanged; for a job already
`cancelled` it returns `accepted` and the store (hence every status and
count) is unchanged. -/
theorem C6_cancel_semantics (store : List (String × TaskRec)) (id : String) :
    (lookupTask store id = none → cancel_task store id = (.notFound, store)) ∧
    (∀ v, lookupTask store id = some v →
      (((v.status = .completed ∨ v.status = .failed) →
          cancel_task store id = (.invalidState, store)) ∧
        (v.status = .cancelled → cancel_task store id = (.accepted, store)))) := by
  constructor
  · intro hnone
    simp [cancel_task, hnone]
  · intro v hv
    constructor
    · intro hterm
      simp [cancel_task, hv, hterm]
    · intro hcanc
      have hne : ¬(v.status = .completed ∨ v.status = .failed) := by
        rw [hcanc]; simp
      simp [cancel_task, hv, hne]
      exact setStatus_self store id v .cancelled hv hcanc

/-- Witness for C6: cancelling a completed job is rejected with the store
unchanged. -/
theorem C6_cancel_semantics_witness :
    cancel_task [("a", { input_path := "/d", status := .completed, priority := 0,
                         success_count := some 2, failed_count := some 0,
                         error := none })] "a" =
      (.invalidState,
        [("a", { input_path := "/d", status := .completed, priority := 0,
                 success_count := some 2, failed_count := some 0,
                 error := none })]) :=
  ((C6_cancel_semantics
      [("a", { input_path := "/d", status := .completed, priority := 0,
               success_count := some 2, failed_count := some 0,
               error := none })] "a").2
    { input_path := "/d", status := .completed, priority := 0,
      success_count := some 2, failed_count := some 0, error := none }
    (by decide)).1 (Or.inl rfl)

/-- Claim C7 (counterexample): between `success += 1` and
`processed = idx` of a skipped file a poll observes `success_count = 1`,
`failed_count = 0`, `processed = 0`, so `success + failed = processed`
does not hold at every observable point after enumeration. -/
theorem C7_counterexample :
    (get_task_status (run false [.skip] (List.replicate 4 .exec))).success_count = 1 ∧
    (get_task_status (run false [.skip] (List.replicate 4 .exec))).failed_count = 0 ∧
    (get_task_status (run false [.skip] (List.replicate 4 .exec))).processed = 0 :=
  ⟨rfl, rfl, rfl⟩

/-- Claim C7 (amended): whenever the live-progress entry exists,
`processed ≤ total` holds, and `success + failed = processed` holds except
at the control points between an outcome-counter increment and the
following `processed = idx` write, where `success + failed = processed + 1`. -/
theorem C7_counter_invariant (mf : Bool) (files : List FileOutcome)
    (sched : List Action) (p : Progress)
    (h : (run mf files sched).progress = some p) :
    p.processed ≤ p.total ∧
    p.success + p.failed =
      (if midCounterUpdate (run mf files sched).ctrl then p.processed + 1
       else p.processed) := by
  obtain ⟨hnp, hco, _⟩ := inv_run mf files sched
  have hc := hco p h
  cases hctrl : (run mf files sched).ctrl with
  | start fs =>
      rw [hnp (by rw [hctrl]; trivial)] at h
      exact Option.noConfusion h
  | ready fs =>
      rw [hnp (by rw [hctrl]; trivial)] at h
      exact Option.noConfusion h
  | done =>
      rw [hnp (by rw [hctrl]; trivial)] at h
      exact Option.noConfusion h
  | loop idx rest =>
      rw [hctrl] at hc
      simp only [counterOk] at hc
      refine ⟨by omega, ?_⟩
      simp [midCounterUpdate]
      omega
  | skipA idx rest =>
      rw [hctrl] at hc
      simp only [counterOk] at hc
      refine ⟨by omega, ?_⟩
      simp [midCounterUpdate]
      omega
  | workA idx o rest =>
      rw [hctrl] at hc
      simp only [counterOk] at hc
      refine ⟨by omega, ?_⟩
      simp [midCounterUpdate]
      omega
  | workB idx rest =>
      rw [hctrl] at hc
      simp only [counterOk] at hc
      refine ⟨by omega, ?_⟩
      simp [midCounterUpdate]
      omega
  | failB idx rest =>
      rw [hctrl] at hc
      simp only [counterOk] at hc
      refine ⟨by omega, ?_⟩
      simp [midCounterUpdate]
      omega
  | setP idx rest =>
      rw [hctrl] at hc
      simp only [counterOk] at hc
      refine ⟨by omega, ?_⟩
      simp [midCounterUpdate]
      omega
  | post =>
      rw [hctrl] at hc
      simp only [counterOk] at hc
      refine ⟨by omega, ?_⟩
      simp [midCounterUpdate]
      omega
  | cleanup =>
      rw [hctrl] at hc
      simp only [counterOk] at hc
      refine ⟨by omega, ?_⟩
      simp [midCounterUpdate]
      omega

/-- Witness for C7: a freshly enumerated 1-file job satisfies the counter
relation. -/
theorem C7_counter_invariant_witness :
    ({ processed := 0, success := 0, failed := 0, total := 1 } : Progress).processed ≤
      ({ processed := 0, success := 0, failed := 0, total := 1 } : Progress).total :=
  (C7_counter_invariant false [.skip] [.exec, .exec]
    { processed := 0, success := 0, failed := 0, total := 1 } rfl).1

/-- Claim C8: over a directory where every expected output artifact already
exists (`k + 1` files, all `skip`), the engine is never invoked on any
interleaving, and the uninterrupted run completes with
`success_count = total = k + 1` and `failed_count = 0`. -/
theorem C8_skip_idempotence (k : Nat) :
    (∀ sched, (run false (List.replicate (k + 1) .skip) sched).engineCalls = 0) ∧
    (run false (List.replicate (k + 1) .skip)
        (List.replicate (3 * (k + 1) + 5) .exec)).task.status = .completed ∧
    (run false (List.replicate (k + 1) .skip)
        (List.replicate (3 * (k + 1) + 5) .exec)).task.success_count = some (k + 1) ∧
    (run false (List.replicate (k + 1) .skip)
        (List.replicate (3 * (k + 1) + 5) .exec)).task.failed_count = some 0 := by
  have hfull : run false (List.replicate (k + 1) .skip)
      (List.replicate (3 * (k + 1) + 5) .exec) =
      ⟨{ input_path := "", status := .completed, priority := 0,
         success_count := some (k + 1), failed_count := some 0, error := none },
        none, .done, 0⟩ := by
    show runFrom false (initConfig _) _ = _
    rw [runFrom_replicate_exec]
    have hsplit : 3 * (k + 1) + 5 = 3 * (k + 1) + 3 + 2 := by ring
    rw [hsplit, execN_add]
    have h2 : execN false 2 (initConfig (List.replicate (k + 1) .skip)) =
        ⟨{ input_path := "", status := .processing, priority := 0,
           success_count := none, failed_count := none, error := none },
          some { processed := 0, success := 0, failed := 0, total := k + 1 },
          .loop 1 (List.replicate (k + 1) .skip), 0⟩ := by
      show (⟨{ input_path := "", status := .processing, priority := 0,
               success_count := none, failed_count := none, error := none },
             some { processed := 0, success := 0, failed := 0,
                    total := (List.replicate (k + 1) FileOutcome.skip).length },
             .loop 1 (List.replicate (k + 1) .skip), 0⟩ : Config) = _
      simp
    rw [h2]
    rw [execN_skip_run false (k + 1) _ _ 1 0 (by simp)]
    simp
  refine ⟨?_, by rw [hfull], by rw [hfull], by rw [hfull]⟩
  intro sched
  exact (skipInv_runFrom false sched (initConfig (List.replicate (k + 1) .skip))
    ⟨rfl, fun o ho => List.eq_of_mem_replicate ho⟩).1

/-- Claim C9: with the engine available and a non-empty enumeration, no
interleaving ever drives the job status to `failed` — per-file errors only
bump `failed` — and the 3-file scenario with file 2 erroring ends
`completed` with `processed = 3`, `success = 2`, `failed = 1`. -/
theorem C9_per_file_failure_not_fatal (files : List FileOutcome)
    (sched : List Action) (h : files ≠ []) :
    (run false files sched).task.status ≠ .failed ∧
    (run false [.ok, .err, .ok] (List.replicate 17 .exec)).task.status = .completed ∧
    (run false [.ok, .err, .ok] (List.replicate 17 .exec)).task.success_count = some 2 ∧
    (run false [.ok, .err, .ok] (List.replicate 17 .exec)).task.failed_count = some 1 ∧
    (run false [.ok, .err, .ok] (List.replicate 14 .exec)).progress =
      some { processed := 3, success := 2, failed := 1, total := 3 } :=
  ⟨(finv_run files h sched).1, rfl, rfl, rfl, rfl⟩

/-- Witness for C9: a fresh 1-file job is not `failed`. -/
theorem C9_per_file_failure_not_fatal_witness :
    (run false [.err] []).task.status ≠ .failed :=
  (C9_per_file_failure_not_fatal [.err] [] (by simp)).1

/-- Claim C10: a `create_task` request whose path does not exist, is not a
directory, or contains `"../"` is rejected with a validation error and the
task store is returned unchanged (no record created, no id handed out). -/
theorem C10_invalid_path_rejected (fs : FS) (store : List (String × TaskRec))
    (freshId : String) (input_path : String) (priority : Int)
    (h : fs.pathExists input_path = false ∨ fs.isDir input_path = false ∨
         hasTraversal input_path.data = true) :
    ∃ e, create_task fs store freshId input_path priority = (.error e, store) := by
  obtain ⟨e, he⟩ := validate_path_invalid fs input_path h
  exact ⟨e, by simp [create_task, he]⟩

/-- Witness for C10: creating a job on a non-existent path leaves the empty
store empty and returns an error. -/
theorem C10_invalid_path_rejected_witness :
    ∃ e, create_task ⟨fun _ => false, fun _ => false, fun s => s⟩ [] "id-1"
      "/missing" 0 = (.error e, []) :=
  C10_invalid_path_rejected ⟨fun _ => false, fun _ => false, fun s => s⟩ [] "id-1"
    "/missing" 0 (Or.inl rfl)

end FunAsr
